import Mathlib

/-!
Verification of the meal-planner repository's core control flow:
the iterative generate → evaluate → revise planning loop
(`meal_planner.py`), the weighted evaluation scoring (`models.py`),
the JSON response extractor, and the evaluation parser.

Python floats are modelled as rationals (`ℚ`); `round(x, 2)` is
modelled as rounding `x * 100` to the nearest integer (ties away from
the float's banker-rounding detail, which no verified property
touches).  JSON documents are modelled structurally (`JValue`);
`json.loads` of well-formed text is modelled as the identity on the
already-structured document.  Failures (Python `KeyError` /
`TypeError` escaping `_parse_evaluation`) are modelled as
`Except.error`.
-/

/-- `models.py` `CriterionScore`: score for one evaluation criterion. -/
structure CriterionScore where
  score : ℚ
  feedback : String
  suggestions : List String
  deriving DecidableEq

/-- `models.py` `EvalScore`: multi-criteria evaluation of a meal plan. -/
structure EvalScore where
  inventory_optimization : CriterionScore
  nutritional_variety : CriterionScore
  practicality : CriterionScore
  cost_efficiency : CriterionScore
  preference_alignment : CriterionScore
  overall_score : ℚ
  improvement_notes : String
  deriving DecidableEq

/-- `models.py` `MealPlanInput`: user preferences and constraints.
`scheduled_dinners` is a dict, modelled as an association list. -/
structure MealPlanInput where
  dietary_preferences : List String
  current_inventory : List String
  scheduled_dinners : List (String × String)
  dietary_restrictions : List String
  budget : Option ℚ
  cooking_skill : String
  deriving DecidableEq

/-- Python `round(x, 2)`: round to two decimal places. -/
def round2 (x : ℚ) : ℚ := ((round (x * 100) : ℤ) : ℚ) / 100

/-- `models.py` `EvalScore.calculate_weighted_score`: the fixed weighted
sum over the five criteria (weights 0.35 / 0.20 / 0.20 / 0.15 / 0.10),
rounded to two decimals.  The source iterates a weights dict computing
`sum(scores[criterion].score * weight ...)`. -/
def calculate_weighted_score (io nv pr ce pa : CriterionScore) : ℚ :=
  round2 (io.score * (35 / 100) + nv.score * (20 / 100) + pr.score * (20 / 100) +
    ce.score * (15 / 100) + pa.score * (10 / 100))

/-- Structural model of a JSON document (the result of `json.loads`). -/
inductive JValue where
  | jnull : JValue
  | jbool : Bool → JValue
  | jnum : ℚ → JValue
  | jstr : String → JValue
  | jarr : List JValue → JValue
  | jobj : List (String × JValue) → JValue

/-- Dict lookup on an association list; the last occurrence of a key
wins, as in a Python dict built by `json.loads`. -/
def lookupLast (k : String) : List (String × JValue) → Option JValue
  | [] => none
  | (k2, v) :: rest =>
    match lookupLast k rest with
    | some r => some r
    | none => if k2 = k then some v else none

/-- Python `data[k]` on a parsed JSON value: `KeyError` / `TypeError`
become `Except.error`. -/
def getKey (d : JValue) (k : String) : Except String JValue :=
  match d with
  | .jobj kvs =>
    match lookupLast k kvs with
    | some v => .ok v
    | none => .error ("KeyError: " ++ k)
  | _ => .error "TypeError: value is not an object"

/-- Python `data.get(k, default)` support: `none` means the default is
used.  Only reached on values already known to be objects. -/
def pyGet (d : JValue) (k : String) : Option JValue :=
  match d with
  | .jobj kvs => lookupLast k kvs
  | _ => none

/-- A criterion `score` must be a number for the weighted sum to be
computable (a non-numeric score makes the Python code raise inside
`calculate_weighted_score`, aborting `_parse_evaluation` all the same). -/
def asNum : JValue → Except String ℚ
  | .jnum q => .ok q
  | _ => .error "TypeError: expected a number"

/-- Extraction of a string field (`feedback`, `improvement_notes`). -/
def asStr : JValue → Except String String
  | .jstr s => .ok s
  | _ => .error "TypeError: expected a string"

/-- Extraction of a list of strings, element by element. -/
def asStrs : List JValue → Except String (List String)
  | [] => .ok []
  | .jstr s :: rest =>
    match asStrs rest with
    | .ok t => .ok (s :: t)
    | .error e => .error e
  | _ :: _ => .error "TypeError: expected a string element"

/-- Extraction of the `suggestions` list. -/
def asStrList : JValue → Except String (List String)
  | .jarr xs => asStrs xs
  | _ => .error "TypeError: expected a list"

/-- `meal_planner.py` `_parse_evaluation`, per-criterion part:
`CriterionScore(score=data[k]["score"], feedback=data[k]["feedback"],
suggestions=data[k].get("suggestions", []))`. -/
def parseCriterion (d : JValue) (k : String) : Except String CriterionScore :=
  match getKey d k with
  | .error e => .error e
  | .ok o =>
    match getKey o "score" with
    | .error e => .error e
    | .ok sv =>
      match asNum sv with
      | .error e => .error e
      | .ok s =>
        match getKey o "feedback" with
        | .error e => .error e
        | .ok fv =>
          match asStr fv with
          | .error e => .error e
          | .ok f =>
            match pyGet o "suggestions" with
            | none => .ok ⟨s, f, []⟩
            | some sg =>
              match asStrList sg with
              | .error e => .error e
              | .ok sugs => .ok ⟨s, f, sugs⟩

/-- `data.get("improvement_notes", "")` from `_parse_evaluation`. -/
def notesField (d : JValue) : Except String String :=
  match pyGet d "improvement_notes" with
  | none => .ok ""
  | some v => asStr v

/-- `meal_planner.py` `_parse_evaluation` (lines 378-422): reads the five
required criterion objects, computes the overall score with
`EvalScore.calculate_weighted_score`, and builds the `EvalScore`.
Missing keys abort with an error.  Any total the document itself may
report is never read. -/
def parse_evaluation (d : JValue) : Except String EvalScore :=
  match parseCriterion d "inventory_optimization" with
  | .error e => .error e
  | .ok io =>
  match parseCriterion d "nutritional_variety" with
  | .error e => .error e
  | .ok nv =>
  match parseCriterion d "practicality" with
  | .error e => .error e
  | .ok pr =>
  match parseCriterion d "cost_efficiency" with
  | .error e => .error e
  | .ok ce =>
  match parseCriterion d "preference_alignment" with
  | .error e => .error e
  | .ok pa =>
  match notesField d with
  | .error e => .error e
  | .ok notes =>
    .ok { inventory_optimization := io
          nutritional_variety := nv
          practicality := pr
          cost_efficiency := ce
          preference_alignment := pa
          overall_score := calculate_weighted_score io nv pr ce pa
          improvement_notes := notes }

/-- `true` exactly when `_parse_evaluation` completes without error. -/
def isParseSuccess : Except String EvalScore → Bool
  | .ok _ => true
  | .error _ => false

/-- The five required criterion keys of the evaluation document. -/
def requiredKeys : List String :=
  ["inventory_optimization", "nutritional_variety", "practicality",
   "cost_efficiency", "preference_alignment"]

/-- The five criteria of a parsed `EvalScore`, keyed as in the document. -/
def criteriaOf (e : EvalScore) : List (String × CriterionScore) :=
  [("inventory_optimization", e.inventory_optimization),
   ("nutritional_variety", e.nutritional_variety),
   ("practicality", e.practicality),
   ("cost_efficiency", e.cost_efficiency),
   ("preference_alignment", e.preference_alignment)]

/-! ### Response extractor (`_extract_json`, lines 360-376)

The two regex searches are embedded with Python `re` semantics
specialised to the two patterns used by the source:
the fenced-block search for `(three backticks)(?:json)?\s*(\x7b.*?\x7d)\s*(three backticks)`
with `re.DOTALL` (leftmost match, lazy body), and the raw fallback
`\x7b.*\x7d` (leftmost match, greedy body). -/

/-- The backtick character that delimits a fenced code block. -/
def bt : Char := Char.ofNat 96

/-- Python `\s` for the ASCII range: space, tab, newline, vertical tab,
form feed, carriage return. -/
def isPySpace (c : Char) : Bool :=
  c = ' ' || c = '\t' || c = '\n' || c = '\x0b' || c = '\x0c' || c = '\r'

/-- Prefix of `cs` up to and including its last closing brace.
Realises the greedy `.*\x7d` once an opening brace has matched. -/
def upToLastRBrace (cs : List Char) : List Char :=
  (cs.reverse.dropWhile (fun c => c ≠ '\x7d')).reverse

/-- Suffix of `cs` strictly after its last closing brace. -/
def afterLastRBrace (cs : List Char) : List Char :=
  (cs.reverse.takeWhile (fun c => c ≠ '\x7d')).reverse

/-- `re.findall(r"\x7b.*\x7d", text, re.DOTALL)`: scanning left to right,
a match starts at an opening brace that still has a closing brace after
it, and the greedy `.*` extends it to the last closing brace of the
text; scanning resumes after the match. -/
def rawMatches : List Char → List (List Char)
  | [] => []
  | c :: rest =>
    if c = '\x7b' && rest.contains '\x7d' then
      ('\x7b' :: upToLastRBrace rest) :: rawMatches (afterLastRBrace rest)
    else
      rawMatches rest
termination_by cs => cs.length
decreasing_by
  · simp only [afterLastRBrace, List.length_reverse, List.length_cons]
    have h := (List.takeWhile_sublist (l := rest.reverse) (fun c => c ≠ '\x7d')).length_le
    simp only [List.length_reverse] at h
    omega
  · simp

/-- Python `max(matches, key=len)`: first element of maximal length. -/
def maxByLen : List (List Char) → Option (List Char)
  | [] => none
  | x :: xs => some (xs.foldl (fun best m => if best.length < m.length then m else best) x)

/-- After a candidate closing brace, `\s*` followed by the closing fence
must match (whitespace characters are never backticks, so the greedy
`\s*` is equivalent to skipping the maximal whitespace run). -/
def fenceFollows (cs : List Char) : Bool :=
  (cs.dropWhile isPySpace).take 3 = [bt, bt, bt]

/-- The lazy `.*?\x7d` with the trailing `\s*` + fence: the body extends
to the first closing brace from which the closing fence follows. -/
def lazyBody : List Char → Option (List Char)
  | [] => none
  | c :: rest =>
    if c = '\x7d' && fenceFollows rest then some []
    else (lazyBody rest).map (fun b => c :: b)

/-- Attempt of the fenced-block pattern just after an opening fence:
optional `json` tag, whitespace, then the lazy brace-delimited group.
If the text starts with `json` but the continuation fails, the
backtracked attempt (not consuming `json`) fails as well, because `j`
is neither whitespace nor an opening brace. -/
def matchAfterFence (cs : List Char) : Option (List Char) :=
  let t := if cs.take 4 = ['j', 's', 'o', 'n'] then cs.drop 4 else cs
  match t.dropWhile isPySpace with
  | '\x7b' :: u => (lazyBody u).map (fun b => '\x7b' :: (b ++ ['\x7d']))
  | _ => none

/-- Leftmost match of the fenced-block pattern: scan for an opening
fence and try the rest of the pattern there; on failure advance one
character. -/
def fencedFirst : List Char → Option (List Char)
  | [] => none
  | c :: rest =>
    match (if c = bt && rest.take 2 = [bt, bt] then matchAfterFence (rest.drop 2) else none) with
    | some g => some g
    | none => fencedFirst rest

/-- `meal_planner.py` `_extract_json`: first the fenced-block search,
then the raw greedy search taking the longest candidate, else the
original text unchanged. -/
def extract_json (s : String) : String :=
  match fencedFirst s.data with
  | some g => String.mk g
  | none =>
    match maxByLen (rawMatches s.data) with
    | some m => String.mk m
    | none => s

/-- `true` when the text has an opening brace with a closing brace
somewhere after it (the condition for the raw fallback to fire). -/
def hasBraceSpan (cs : List Char) : Bool :=
  ((cs.dropWhile (fun c => c ≠ '\x7b')).drop 1).contains '\x7d'

/-! ### The planning loop (`plan_meals`, lines 172-248)

The Completion Service is opaque: a stub is a pair of functions, one
with the shape of `generate_meal_plan` (constraints, optional previous
plan, optional previous evaluation → plan payload) and one with the
shape of `evaluate_meal_plan` (constraints, plan payload →
`EvalScore`).  The loop itself is embedded verbatim: `MAX_ITERATIONS`
passes through `range`, the threshold check breaks out early, and the
evaluation history is append-only. -/

/-- `MealPlannerAgent.QUALITY_THRESHOLD` (line 28). -/
def QUALITY_THRESHOLD : ℚ := 85

/-- `MealPlannerAgent.MAX_ITERATIONS` (line 29). -/
def MAX_ITERATIONS : ℕ := 3

/-- The generation call of one loop iteration: initial mode at
iteration 0 (no current plan yet), revision mode afterwards — the
dispatch on `iteration == 0` at lines 199-208, which coincides with
`current_plan` being `None`. -/
def nextPlan (gen : MealPlanInput → Option String → Option EvalScore → String)
    (u : MealPlanInput) (current_plan : Option String) (prev_eval : Option EvalScore) :
    String :=
  match current_plan with
  | none => gen u none none
  | some p => gen u (some p) prev_eval

/-- The `for iteration in range(...)` body of `plan_meals`, with the
remaining iteration count as fuel: generate, evaluate, append to the
history, stop when the overall score reaches the threshold, otherwise
carry the plan and evaluation into the next iteration. -/
def planLoopGo (gen : MealPlanInput → Option String → Option EvalScore → String)
    (ev : MealPlanInput → String → EvalScore) (u : MealPlanInput) (θ : ℚ) :
    ℕ → Option String → Option EvalScore → List EvalScore →
    Option String × List EvalScore
  | 0, current_plan, _, evaluations => (current_plan, evaluations)
  | fuel + 1, current_plan, prev_eval, evaluations =>
    let plan := nextPlan gen u current_plan prev_eval
    let e := ev u plan
    if θ ≤ e.overall_score then
      (some plan, evaluations ++ [e])
    else
      planLoopGo gen ev u θ fuel (some plan) (some e) (evaluations ++ [e])

/-- `plan_meals` with the iteration cap and threshold as explicit
parameters (in the source they are read from the class configuration
constants): empty history, no prior plan, then the loop. -/
def plan_meals (gen : MealPlanInput → Option String → Option EvalScore → String)
    (ev : MealPlanInput → String → EvalScore) (u : MealPlanInput)
    (maxIterations : ℕ) (θ : ℚ) : Option String × List EvalScore :=
  planLoopGo gen ev u θ maxIterations none none []

/-- The session entry point exactly as callable on `MealPlannerAgent`:
`plan_meals(user_input)` runs with the class constants
`MAX_ITERATIONS` and `QUALITY_THRESHOLD`; the caller has no per-call
cap or threshold argument (the `verbose` flag only controls printing). -/
def plan_meals_entry (gen : MealPlanInput → Option String → Option EvalScore → String)
    (ev : MealPlanInput → String → EvalScore) (u : MealPlanInput) :
    Option String × List EvalScore :=
  plan_meals gen ev u MAX_ITERATIONS QUALITY_THRESHOLD

/-- The trace of the loop against a stub: plan and evaluation of
iteration `n`, assuming every earlier iteration fell below the
threshold (which is when iteration `n` is reached at all). -/
def traceStep (gen : MealPlanInput → Option String → Option EvalScore → String)
    (ev : MealPlanInput → String → EvalScore) (u : MealPlanInput) :
    ℕ → String × EvalScore
  | 0 =>
    let p := gen u none none
    (p, ev u p)
  | n + 1 =>
    let prev := traceStep gen ev u n
    let p := gen u (some prev.1) (some prev.2)
    (p, ev u p)

/-- Plan payload generated at iteration `n` of the trace. -/
def planAt (gen : MealPlanInput → Option String → Option EvalScore → String)
    (ev : MealPlanInput → String → EvalScore) (u : MealPlanInput) (n : ℕ) : String :=
  (traceStep gen ev u n).1

/-- Evaluation produced at iteration `n` of the trace. -/
def evalAt (gen : MealPlanInput → Option String → Option EvalScore → String)
    (ev : MealPlanInput → String → EvalScore) (u : MealPlanInput) (n : ℕ) : EvalScore :=
  (traceStep gen ev u n).2

/-- Overall score of iteration `n` of the trace. -/
def scoreAt (gen : MealPlanInput → Option String → Option EvalScore → String)
    (ev : MealPlanInput → String → EvalScore) (u : MealPlanInput) (n : ℕ) : ℚ :=
  (evalAt gen ev u n).overall_score

/-- The `current_plan` value at the start of iteration `n`. -/
def prevPlanOf (gen : MealPlanInput → Option String → Option EvalScore → String)
    (ev : MealPlanInput → String → EvalScore) (u : MealPlanInput) : ℕ → Option String
  | 0 => none
  | n + 1 => some (planAt gen ev u n)

/-- The `prev_eval` value at the start of iteration `n`. -/
def prevEvalOf (gen : MealPlanInput → Option String → Option EvalScore → String)
    (ev : MealPlanInput → String → EvalScore) (u : MealPlanInput) : ℕ → Option EvalScore
  | 0 => none
  | n + 1 => some (evalAt gen ev u n)

/-! ### Prompt construction (`_build_improvement_prompt`, lines 304-358)

The revision prompt is an f-string; it is embedded as the join of its
literal segments and interpolated values.  Python value rendering
(`str` of a list of strings, `:.1f` fixed-point formatting,
`json.dumps(..., indent=2)`) is modelled by the helpers below; their
exact text never matters to the verified properties, only that the
interpolated feedback / notes / plan strings appear verbatim. -/

/-- Python `repr` escaping for one character inside a quoted string
(backslash, the active quote, and common control characters; other
characters pass through). -/
def pyEscapeChar (q c : Char) : String :=
  if c = '\\' then "\\\\"
  else if c = q then "\\" ++ String.singleton q
  else if c = '\n' then "\\n"
  else if c = '\r' then "\\r"
  else if c = '\t' then "\\t"
  else String.singleton c

/-- Python `repr` of a string: single quotes by default, double quotes
when the string contains a single quote but no double quote. -/
def pyStrRepr (s : String) : String :=
  let q : Char := if s.contains '\x27' && !(s.contains '\x22') then '\x22' else '\x27'
  String.singleton q ++ String.join (s.data.map (pyEscapeChar q)) ++ String.singleton q

/-- Python `str` of a list of strings, as interpolated by an f-string. -/
def pyListRepr (xs : List String) : String :=
  "[" ++ String.intercalate ", " (xs.map pyStrRepr) ++ "]"

/-- Python `f"...:.1f"` fixed-point rendering with one decimal digit. -/
def fmt1 (q : ℚ) : String :=
  (if round (q * 10) < (0 : ℤ) then "-" else "") ++
    toString ((round (q * 10) : ℤ).natAbs / 10) ++ "." ++
    toString ((round (q * 10) : ℤ).natAbs % 10)

/-- Rendering of a Python float (`str(85.0) = "85.0"`); non-integral
rationals fall back to the rational's own rendering, which no verified
property inspects. -/
def numRepr (q : ℚ) : String :=
  if q.den = 1 then toString q.num ++ ".0" else toString q

/-- JSON string escaping for one character (`json.dumps`). -/
def jsonEscapeChar (c : Char) : String :=
  if c = '\x22' then "\\\x22"
  else if c = '\\' then "\\\\"
  else if c = '\n' then "\\n"
  else if c = '\r' then "\\r"
  else if c = '\t' then "\\t"
  else String.singleton c

/-- A JSON string literal with its surrounding quotes. -/
def jsonQuote (s : String) : String :=
  "\x22" ++ String.join (s.data.map jsonEscapeChar) ++ "\x22"

/-- Indentation of `json.dumps(..., indent=2)` at nesting level `lvl`. -/
def pad (lvl : ℕ) : String := String.mk (List.replicate (2 * lvl) ' ')

mutual

/-- `json.dumps(value, indent=2)`, one JSON value at nesting level `lvl`. -/
def dumpsVal : JValue → ℕ → String
  | .jnull, _ => "null"
  | .jbool true, _ => "true"
  | .jbool false, _ => "false"
  | .jnum q, _ => numRepr q
  | .jstr s, _ => jsonQuote s
  | .jarr [], _ => "[]"
  | .jarr (x :: xs), lvl =>
    "[\n" ++ dumpsItems (x :: xs) (lvl + 1) ++ "\n" ++ pad lvl ++ "]"
  | .jobj [], _ => "\x7b\x7d"
  | .jobj (p :: ps), lvl =>
    "\x7b\n" ++ dumpsPairs (p :: ps) (lvl + 1) ++ "\n" ++ pad lvl ++ "\x7d"

/-- Array elements, one per line, comma separated. -/
def dumpsItems : List JValue → ℕ → String
  | [], _ => ""
  | [v], lvl => pad lvl ++ dumpsVal v lvl
  | v :: w :: rest, lvl =>
    pad lvl ++ dumpsVal v lvl ++ ",\n" ++ dumpsItems (w :: rest) lvl

/-- Object members, one per line, comma separated. -/
def dumpsPairs : List (String × JValue) → ℕ → String
  | [], _ => ""
  | [(k, v)], lvl => pad lvl ++ jsonQuote k ++ ": " ++ dumpsVal v lvl
  | (k, v) :: p :: rest, lvl =>
    pad lvl ++ jsonQuote k ++ ": " ++ dumpsVal v lvl ++ ",\n" ++ dumpsPairs (p :: rest) lvl

end

/-- `models.py` `MealPlanInput.to_dict`: the serializable constraint
dictionary. -/
def to_dict (u : MealPlanInput) : JValue :=
  .jobj
    [("dietary_preferences", .jarr (u.dietary_preferences.map .jstr)),
     ("current_inventory", .jarr (u.current_inventory.map .jstr)),
     ("scheduled_dinners", .jobj (u.scheduled_dinners.map (fun p => (p.1, JValue.jstr p.2)))),
     ("dietary_restrictions", .jarr (u.dietary_restrictions.map .jstr)),
     ("budget", match u.budget with | none => .jnull | some b => .jnum b),
     ("cooking_skill", .jstr u.cooking_skill)]

/-- The segments of the `_build_improvement_prompt` f-string, in source
order: literal text interleaved with the interpolated constraint dump,
previous plan, per-criterion scores / feedback / suggestions, overall
score, and improvement notes. -/
def improvementParts (u : MealPlanInput) (previous_plan : String)
    (previous_eval : EvalScore) : List String :=
  ["You are an expert meal planner tasked with IMPROVING a previous meal plan based on evaluation feedback.\n\nUSER INPUT:\n",
   dumpsVal (to_dict u) 0,
   "\n\nPREVIOUS MEAL PLAN:\n",
   previous_plan,
   "\n\nEVALUATION SCORES:\n- Inventory Optimization: ",
   fmt1 previous_eval.inventory_optimization.score,
   "/100 (weight: 35%)\n  Feedback: ",
   previous_eval.inventory_optimization.feedback,
   "\n  Suggestions: ",
   pyListRepr previous_eval.inventory_optimization.suggestions,
   "\n\n- Nutritional Variety: ",
   fmt1 previous_eval.nutritional_variety.score,
   "/100 (weight: 20%)\n  Feedback: ",
   previous_eval.nutritional_variety.feedback,
   "\n  Suggestions: ",
   pyListRepr previous_eval.nutritional_variety.suggestions,
   "\n\n- Practicality: ",
   fmt1 previous_eval.practicality.score,
   "/100 (weight: 20%)\n  Feedback: ",
   previous_eval.practicality.feedback,
   "\n  Suggestions: ",
   pyListRepr previous_eval.practicality.suggestions,
   "\n\n- Cost Efficiency: ",
   fmt1 previous_eval.cost_efficiency.score,
   "/100 (weight: 15%)\n  Feedback: ",
   previous_eval.cost_efficiency.feedback,
   "\n  Suggestions: ",
   pyListRepr previous_eval.cost_efficiency.suggestions,
   "\n\n- Preference Alignment: ",
   fmt1 previous_eval.preference_alignment.score,
   "/100 (weight: 10%)\n  Feedback: ",
   previous_eval.preference_alignment.feedback,
   "\n  Suggestions: ",
   pyListRepr previous_eval.preference_alignment.suggestions,
   "\n\nOVERALL SCORE: ",
   fmt1 previous_eval.overall_score,
   "/100 (Target: ",
   numRepr QUALITY_THRESHOLD,
   ")\n\nKEY IMPROVEMENTS NEEDED:\n",
   previous_eval.improvement_notes,
   "\n\nTASK: Generate an IMPROVED meal plan that addresses the feedback above. Focus especially on the lowest-scoring criteria and the specific suggestions provided.\n\n- Keep what\x27s working well from the previous plan\n- Make targeted improvements to address the identified issues\n- Ensure the new plan is measurably better than the previous one\n\nProvide your IMPROVED meal plan in the same JSON format as before:\n```json\n\x7b\n  \x22daily_meals\x22: \x7b ... \x7d,\n  \x22shopping_list\x22: \x7b ... \x7d,\n  \x22inventory_usage_percent\x22: ...,\n  \x22variety_score\x22: ...,\n  \x22total_estimated_cost\x22: ...,\n  \x22reasoning\x22: \x22Explain specifically how you addressed the evaluation feedback...\x22\n\x7d\n```"]

/-- `meal_planner.py` `_build_improvement_prompt`: the revision-mode
generation prompt, the join of its segments. -/
def build_improvement_prompt (u : MealPlanInput) (previous_plan : String)
    (previous_eval : EvalScore) : String :=
  String.join (improvementParts u previous_plan previous_eval)

/-- Modelled from the spec: the repository has no serializer from
`EvalScore` back to an evaluation document, but §8 states a round-trip
property over "an already-parsed-then-reserialized evaluation
document"; this serializer follows the evaluation payload shape of §6
(five criterion objects `score`/`feedback`/`suggestions` plus
`improvement_notes`). -/
def serializeCriterion (c : CriterionScore) : JValue :=
  .jobj
    [("score", .jnum c.score),
     ("feedback", .jstr c.feedback),
     ("suggestions", .jarr (c.suggestions.map .jstr))]

/-- Modelled from the spec: full evaluation document for an
`EvalScore`, per the §6 evaluation payload shape. -/
def serializeEvaluation (e : EvalScore) : JValue :=
  .jobj
    [("inventory_optimization", serializeCriterion e.inventory_optimization),
     ("nutritional_variety", serializeCriterion e.nutritional_variety),
     ("practicality", serializeCriterion e.practicality),
     ("cost_efficiency", serializeCriterion e.cost_efficiency),
     ("preference_alignment", serializeCriterion e.preference_alignment),
     ("improvement_notes", .jstr e.improvement_notes)]

/-! ### Concrete stubs and sample documents used by witnesses -/

/-- A stub evaluation whose overall score is `q`. -/
def stubEval (q : ℚ) : EvalScore :=
  ⟨⟨q, "", []⟩, ⟨q, "", []⟩, ⟨q, "", []⟩, ⟨q, "", []⟩, ⟨q, "", []⟩, q, ""⟩

/-- A stub generation service: `"P0"` initially, then one `+` per revision. -/
def demoGen : MealPlanInput → Option String → Option EvalScore → String :=
  fun _ p _ => match p with | none => "P0" | some q => q ++ "+"

/-- A stub evaluation service scoring the successive plans 40 then 90. -/
def demoEval : MealPlanInput → String → EvalScore :=
  fun _ s => if s = "P0" then stubEval 40 else if s = "P0+" then stubEval 90 else stubEval 50

/-- A stub evaluation service scoring the successive plans 40, 45, 50, 96. -/
def demoEval4 : MealPlanInput → String → EvalScore :=
  fun _ s =>
    if s = "P0" then stubEval 40
    else if s = "P0+" then stubEval 45
    else if s = "P0++" then stubEval 50
    else stubEval 96

/-- An empty constraint set for witnesses. -/
def demoInput : MealPlanInput := ⟨[], [], [], [], none, "intermediate"⟩

/-- The six document keys `_parse_evaluation` reads. -/
def relevantKeys : List String := requiredKeys ++ ["improvement_notes"]

/-- A well-formed sample criterion object with score `q`. -/
def sampleCriterion (q : ℚ) : JValue :=
  .jobj [("score", .jnum q), ("feedback", .jstr "ok"), ("suggestions", .jarr [])]

/-- A sample criterion object without a `suggestions` key. -/
def sampleCriterionNoSug : JValue :=
  .jobj [("score", .jnum 90), ("feedback", .jstr "ok")]

/-- A complete well-formed sample evaluation document. -/
def sampleDoc : JValue :=
  .jobj
    [("inventory_optimization", sampleCriterion 80),
     ("nutritional_variety", sampleCriterion 70),
     ("practicality", sampleCriterion 90),
     ("cost_efficiency", sampleCriterion 60),
     ("preference_alignment", sampleCriterion 50),
     ("improvement_notes", .jstr "notes")]

/-- The `EvalScore` that parsing `sampleDoc` produces (its overall
score is the weighted sum of the five criterion scores, which
evaluates to 74). -/
def sampleEval : EvalScore :=
  ⟨⟨80, "ok", []⟩, ⟨70, "ok", []⟩, ⟨90, "ok", []⟩, ⟨60, "ok", []⟩, ⟨50, "ok", []⟩,
   calculate_weighted_score ⟨80, "ok", []⟩ ⟨70, "ok", []⟩ ⟨90, "ok", []⟩ ⟨60, "ok", []⟩
     ⟨50, "ok", []⟩, "notes"⟩

/-- `sampleDoc` with the required `practicality` key removed. -/
def sampleDocMissing : JValue :=
  .jobj
    [("inventory_optimization", sampleCriterion 80),
     ("nutritional_variety", sampleCriterion 70),
     ("cost_efficiency", sampleCriterion 60),
     ("preference_alignment", sampleCriterion 50),
     ("improvement_notes", .jstr "notes")]

/-- `sampleDoc` with the `practicality` criterion lacking `suggestions`. -/
def sampleDocNoSug : JValue :=
  .jobj
    [("inventory_optimization", sampleCriterion 80),
     ("nutritional_variety", sampleCriterion 70),
     ("practicality", sampleCriterionNoSug),
     ("cost_efficiency", sampleCriterion 60),
     ("preference_alignment", sampleCriterion 50),
     ("improvement_notes", .jstr "notes")]

/-! ### Lemmas about the response extractor -/

/-- The greedy `.*` closes at the last closing brace of the text. -/
theorem upToLastRBrace_eq (b c : List Char) (hc : '\x7d' ∉ c) :
    upToLastRBrace (b ++ '\x7d' :: c) = b ++ ['\x7d'] := by
  have hall : ∀ x ∈ c.reverse, (fun ch => ch ≠ '\x7d' : Char → Bool) x = true := by
    intro x hx
    simp only [List.mem_reverse] at hx
    simp only [ne_eq, decide_eq_true_eq]
    exact fun h => hc (h ▸ hx)
  simp only [upToLastRBrace, List.reverse_append, List.reverse_cons, List.append_assoc,
    List.singleton_append, List.dropWhile_append_of_pos hall, List.dropWhile_cons]
  simp

/-- What scanning resumes with after the greedy match. -/
theorem afterLastRBrace_eq (b c : List Char) (hc : '\x7d' ∉ c) :
    afterLastRBrace (b ++ '\x7d' :: c) = c := by
  have hall : ∀ x ∈ c.reverse, (fun ch => ch ≠ '\x7d' : Char → Bool) x = true := by
    intro x hx
    simp only [List.mem_reverse] at hx
    simp only [ne_eq, decide_eq_true_eq]
    exact fun h => hc (h ▸ hx)
  simp only [afterLastRBrace, List.reverse_append, List.reverse_cons, List.append_assoc,
    List.singleton_append, List.takeWhile_append_of_pos hall, List.takeWhile_cons]
  simp

/-- Text without a closing brace admits no raw match. -/
theorem rawMatches_nil_of (c : List Char) (hc : '\x7d' ∉ c) : rawMatches c = [] := by
  induction c with
  | nil => simp [rawMatches]
  | cons x rest ih =>
    have h1 : '\x7d' ∉ rest := fun h => hc (List.mem_cons_of_mem _ h)
    have h2 : rest.contains '\x7d' = false := by simpa using h1
    unfold rawMatches
    rw [h2, Bool.and_false, if_neg (by simp)]
    exact ih h1

/-- The raw fallback produces exactly one candidate: the span from the
first opening brace (no opening brace precedes it) to the last closing
brace (no closing brace follows it). -/
theorem rawMatches_decomp (a b c : List Char) (ha : '\x7b' ∉ a) (hc : '\x7d' ∉ c) :
    rawMatches (a ++ '\x7b' :: (b ++ '\x7d' :: c)) = ['\x7b' :: (b ++ ['\x7d'])] := by
  induction a with
  | nil =>
    have hmem : (b ++ '\x7d' :: c).contains '\x7d' = true := by simp
    unfold rawMatches
    simp only [List.nil_append, hmem]
    simp [upToLastRBrace_eq b c hc, afterLastRBrace_eq b c hc, rawMatches_nil_of c hc]
  | cons x a2 ih =>
    have hx : ¬ x = '\x7b' := fun h => ha (h ▸ List.mem_cons_self x a2)
    have ih2 := ih (fun h => ha (List.mem_cons_of_mem _ h))
    unfold rawMatches
    simpa [hx] using ih2

/-- After a closing brace inside backtick-free text, the closing fence
cannot follow: the first character the whitespace skip stops on is
either a non-backtick character of the text or the closing brace. -/
theorem take3_ne_fence (xs : List Char) (h : ∀ x ∈ xs, x ≠ bt) (t : List Char) :
    ((xs ++ '\x7d' :: t).dropWhile isPySpace).take 3 ≠ [bt, bt, bt] := by
  induction xs with
  | nil =>
    have h1 : isPySpace '\x7d' = false := rfl
    simp only [List.nil_append, List.dropWhile_cons, h1, if_false]
    simp [bt]
  | cons x xs ih =>
    have hx : x ≠ bt := h x (List.mem_cons_self _ _)
    have ih2 := ih (fun y hy => h y (List.mem_cons_of_mem _ hy))
    cases hsp : isPySpace x with
    | true => simpa [List.dropWhile_cons, hsp] using ih2
    | false =>
      simp only [List.cons_append, List.dropWhile_cons, hsp, if_false]
      simp [hx]

/-- `fenceFollows` is false after a closing brace inside backtick-free
text. -/
theorem fenceFollows_false_of (xs : List Char) (h : ∀ x ∈ xs, x ≠ bt) (t : List Char) :
    fenceFollows (xs ++ '\x7d' :: t) = false := by
  simp only [fenceFollows, decide_eq_false_iff_not]
  exact take3_ne_fence xs h t

/-- The lazy body stops exactly at the object's closing brace when the
body contains no backtick and the closing fence follows. -/
theorem lazyBody_inner (inner : List Char) (t : List Char)
    (hin : ∀ x ∈ inner, x ≠ bt) (hf : fenceFollows t = true) :
    lazyBody (inner ++ '\x7d' :: t) = some inner := by
  induction inner with
  | nil => simp [lazyBody, hf]
  | cons x xs ih =>
    have hff := fenceFollows_false_of xs (fun y hy => hin y (List.mem_cons_of_mem _ hy)) t
    have ih2 := ih (fun y hy => hin y (List.mem_cons_of_mem _ hy))
    simp [lazyBody, hff, ih2]

/-- The fenced-block pattern succeeds just after an opening fence on a
well-formed block: optional `json` tag, whitespace, a backtick-free
brace-delimited object, whitespace, closing fence. -/
theorem matchAfterFence_block (tg ws1 inner ws2 post : List Char)
    (htg : tg = ['j', 's', 'o', 'n'] ∨ tg = [])
    (h1 : ∀ x ∈ ws1, isPySpace x = true)
    (hin : ∀ x ∈ inner, x ≠ bt)
    (h2 : ∀ x ∈ ws2, isPySpace x = true) :
    matchAfterFence (tg ++ (ws1 ++ '\x7b' :: (inner ++ '\x7d' :: (ws2 ++ bt :: bt :: bt :: post))))
      = some ('\x7b' :: (inner ++ ['\x7d'])) := by
  have hbtsp : isPySpace bt = false := rfl
  have hf : fenceFollows (ws2 ++ bt :: bt :: bt :: post) = true := by
    simp [fenceFollows, List.dropWhile_append_of_pos h2, List.dropWhile_cons, hbtsp]
  have hl := lazyBody_inner inner _ hin hf
  have hbrsp : isPySpace '\x7b' = false := rfl
  rcases htg with h | h <;> subst h
  · unfold matchAfterFence
    rw [if_pos (by simp)]
    simp only [List.cons_append, List.nil_append, List.drop_succ_cons, List.drop_zero]
    rw [List.dropWhile_append_of_pos h1, List.dropWhile_cons, hbrsp, if_neg (by simp)]
    simp [hl]
  · have hne : ((ws1 ++ '\x7b' :: (inner ++ '\x7d' :: (ws2 ++ bt :: bt :: bt :: post))).take 4)
        ≠ ['j', 's', 'o', 'n'] := by
      cases ws1 with
      | nil => simp
      | cons w ws =>
        have hw : w ≠ 'j' := by
          intro hwj
          have := h1 w (List.mem_cons_self _ _)
          rw [hwj] at this
          exact absurd this (by decide)
        simp [hw]
    unfold matchAfterFence
    rw [List.nil_append]
    simp only [if_neg hne]
    rw [List.dropWhile_append_of_pos h1, List.dropWhile_cons, hbrsp, if_neg (by simp)]
    simp [hl]

/-- Scanning skips backtick-free text and fires at the first fence when
the pattern matches there. -/
theorem fencedFirst_found (pre payload : List Char) (g : List Char)
    (hpre : ∀ x ∈ pre, x ≠ bt) (hm : matchAfterFence payload = some g) :
    fencedFirst (pre ++ bt :: bt :: bt :: payload) = some g := by
  induction pre with
  | nil =>
    unfold fencedFirst
    simp [hm]
  | cons x pre2 ih =>
    have hx : ¬ x = bt := hpre x (List.mem_cons_self _ _)
    have ih2 := ih (fun y hy => hpre y (List.mem_cons_of_mem _ hy))
    unfold fencedFirst
    simpa [hx] using ih2

/-- C7: for an input containing a fenced code block tagged `json` (or
untagged) that holds a brace-delimited object — fence, optional tag,
whitespace, the object, whitespace, closing fence, with no backtick
before the block or inside the object — `_extract_json` returns
exactly that object, from its opening brace to its closing brace.  The
backtick-free side conditions formalise "the first such block": no
fence can fire earlier, and the lazy body cannot stop early inside the
object. -/
theorem C7_first_fenced_block (pre tg ws1 inner ws2 post : List Char)
    (hpre : ∀ x ∈ pre, x ≠ bt)
    (htg : tg = ['j', 's', 'o', 'n'] ∨ tg = [])
    (h1 : ∀ x ∈ ws1, isPySpace x = true)
    (hin : ∀ x ∈ inner, x ≠ bt)
    (h2 : ∀ x ∈ ws2, isPySpace x = true) :
    extract_json (String.mk (pre ++ bt :: bt :: bt ::
        (tg ++ (ws1 ++ '\x7b' :: (inner ++ '\x7d' :: (ws2 ++ bt :: bt :: bt :: post))))))
      = String.mk ('\x7b' :: (inner ++ ['\x7d'])) := by
  have hm := matchAfterFence_block tg ws1 inner ws2 post htg h1 hin h2
  have hf := fencedFirst_found pre _ _ hpre hm
  unfold extract_json
  rw [show (String.mk (pre ++ bt :: bt :: bt ::
      (tg ++ (ws1 ++ '\x7b' :: (inner ++ '\x7d' :: (ws2 ++ bt :: bt :: bt :: post)))))).data
    = pre ++ bt :: bt :: bt ::
      (tg ++ (ws1 ++ '\x7b' :: (inner ++ '\x7d' :: (ws2 ++ bt :: bt :: bt :: post)))) from rfl]
  rw [hf]

/-- Witness for C7 at the spec's own example: the fenced `json` block
in `intro text ```json\n{"a":1}\n``` trailing` extracts to `{"a":1}`. -/
theorem C7_witness :
    extract_json "intro text ```json\n\x7b\x22a\x22:1\x7d\n``` trailing" = "\x7b\x22a\x22:1\x7d" := by
  have h := C7_first_fenced_block ("intro text ".data) (['j', 's', 'o', 'n']) (['\n'])
    ("\x22a\x22:1".data) (['\n']) (" trailing".data)
    (by decide) (Or.inl rfl) (by decide) (by decide) (by decide)
  exact h

/-- Closing brace membership survives the whitespace-skip and drop. -/
theorem mem_of_dropWhile_drop (p : Char → Bool) (l : List Char)
    (h : '\x7d' ∈ (l.dropWhile p).drop 1) : '\x7d' ∈ l :=
  (List.dropWhile_sublist p).subset ((List.drop_subset 1 (l.dropWhile p)) h)

/-- A brace span in a tail is a brace span in the whole. -/
theorem hasBraceSpan_cons_of (x : Char) (l : List Char)
    (h : hasBraceSpan l = true) : hasBraceSpan (x :: l) = true := by
  by_cases hx : x = '\x7b'
  · subst hx
    have hdw : List.dropWhile (fun c => c ≠ '\x7b') ('\x7b' :: l) = '\x7b' :: l := by
      simp [List.dropWhile_cons]
    simp only [hasBraceSpan, hdw, List.drop_succ_cons, List.drop_zero]
    simp only [hasBraceSpan] at h
    have hm : '\x7d' ∈ l := mem_of_dropWhile_drop _ l (by simpa using h)
    simpa using hm
  · have hdw : List.dropWhile (fun c => c ≠ '\x7b') (x :: l)
        = List.dropWhile (fun c => c ≠ '\x7b') l := by
      simp [List.dropWhile_cons, hx]
    simpa only [hasBraceSpan, hdw] using h

/-- Brace spans are monotone along list suffixes. -/
theorem hasBraceSpan_mono (l₁ l₂ : List Char) (h : l₁ <:+ l₂)
    (hb : hasBraceSpan l₁ = true) : hasBraceSpan l₂ = true := by
  obtain ⟨pre, rfl⟩ := h
  induction pre with
  | nil => simpa using hb
  | cons x pre ih => exact hasBraceSpan_cons_of x _ ih

/-- Absence of a brace span is preserved when the head is removed. -/
theorem hasBraceSpan_of_cons_false (x : Char) (l : List Char)
    (h : hasBraceSpan (x :: l) = false) : hasBraceSpan l = false := by
  cases hb : hasBraceSpan l with
  | false => rfl
  | true => rw [hasBraceSpan_cons_of x l hb] at h; exact h.symm ▸ rfl

/-- Without a brace span the raw fallback finds nothing. -/
theorem rawMatches_eq_nil (cs : List Char) (h : hasBraceSpan cs = false) :
    rawMatches cs = [] := by
  induction cs with
  | nil => simp [rawMatches]
  | cons x rest ih =>
    have hrest := hasBraceSpan_of_cons_false x rest h
    by_cases hx : x = '\x7b'
    · subst hx
      have hdw : List.dropWhile (fun c => c ≠ '\x7b') ('\x7b' :: rest) = '\x7b' :: rest := by
        simp [List.dropWhile_cons]
      have hcont : rest.contains '\x7d' = false := by
        simp only [hasBraceSpan, hdw, List.drop_succ_cons, List.drop_zero] at h
        exact h
      unfold rawMatches
      rw [hcont, Bool.and_false, if_neg (by simp)]
      exact ih hrest
    · unfold rawMatches
      rw [if_neg (by simp [hx])]
      exact ih hrest

/-- A successful lazy body contains a closing brace. -/
theorem lazyBody_mem (u : List Char) (b : List Char)
    (h : lazyBody u = some b) : '\x7d' ∈ u := by
  induction u generalizing b with
  | nil => simp [lazyBody] at h
  | cons c rest ih =>
    unfold lazyBody at h
    by_cases hc : (c = '\x7d' && fenceFollows rest) = true
    · have := (Bool.and_eq_true _ _).mp hc
      have hc2 : c = '\x7d' := by simpa using this.1
      exact hc2 ▸ List.mem_cons_self _ _
    · rw [if_neg hc] at h
      obtain ⟨b2, hb2, _⟩ := Option.map_eq_some'.mp h
      exact List.mem_cons_of_mem _ (ih b2 hb2)

/-- A successful fence-pattern attempt implies a brace span. -/
theorem matchAfterFence_hasBraceSpan (t : List Char) (g : List Char)
    (h : matchAfterFence t = some g) : hasBraceSpan t = true := by
  unfold matchAfterFence at h
  simp only [] at h
  set t2 := if t.take 4 = ['j', 's', 'o', 'n'] then t.drop 4 else t with ht2
  have htsuffix : t2 <:+ t := by
    rw [ht2]
    by_cases h4 : t.take 4 = ['j', 's', 'o', 'n']
    · rw [if_pos h4]; exact List.drop_suffix 4 t
    · rw [if_neg h4]
  cases hdw : List.dropWhile isPySpace t2 with
  | nil => rw [hdw] at h; simp at h
  | cons c u =>
    rw [hdw] at h
    split at h
    · rename_i u2 heq
      obtain ⟨hc, hu⟩ : c = '\x7b' ∧ u = u2 := by
        injection heq with h1 h2
        exact ⟨h1, h2⟩
      subst hc; subst hu
      obtain ⟨b2, hb2, _⟩ := Option.map_eq_some'.mp h
      have hmem : '\x7d' ∈ u := lazyBody_mem u b2 hb2
      have hspan : hasBraceSpan ('\x7b' :: u) = true := by
        have hdw2 : List.dropWhile (fun c => c ≠ '\x7b') ('\x7b' :: u) = '\x7b' :: u := by
          simp [List.dropWhile_cons]
        simp only [hasBraceSpan, hdw2, List.drop_succ_cons, List.drop_zero]
        simpa using hmem
      have hsp2 : hasBraceSpan t2 = true := by
        have : ('\x7b' :: u) <:+ t2 := hdw ▸ List.dropWhile_suffix isPySpace
        exact hasBraceSpan_mono _ _ this hspan
      exact hasBraceSpan_mono _ _ htsuffix hsp2
    · exact absurd h (by simp)

/-- Without a brace span the fenced-block search finds nothing. -/
theorem fencedFirst_eq_none (cs : List Char) (h : hasBraceSpan cs = false) :
    fencedFirst cs = none := by
  induction cs with
  | nil => rfl
  | cons x rest ih =>
    have hrest := hasBraceSpan_of_cons_false x rest h
    unfold fencedFirst
    cases hb : (x = bt && rest.take 2 = [bt, bt]) with
    | false => simpa [hb] using ih hrest
    | true =>
      cases hm : matchAfterFence (rest.drop 2) with
      | none => simpa [hb, hm] using ih hrest
      | some g =>
        exfalso
        have h1 := matchAfterFence_hasBraceSpan _ _ hm
        have h2 := hasBraceSpan_mono _ _ (List.drop_suffix 2 rest) h1
        have h3 := hasBraceSpan_cons_of x _ h2
        rw [h] at h3
        exact Bool.noConfusion h3

/-- C8: `_extract_json` is total — it always returns a string rather
than raising — and on input with no brace-delimited span at all (no
opening brace with a closing brace after it, the `hasBraceSpan`
condition) both searches fail and the original text is returned
unchanged. -/
theorem C8_no_brace_identity (s : String) (h : hasBraceSpan s.data = false) :
    extract_json s = s := by
  unfold extract_json
  rw [fencedFirst_eq_none s.data h, rawMatches_eq_nil s.data h]
  rfl

/-- Witness for C8: brace-free input comes back unchanged. -/
theorem C8_witness :
    hasBraceSpan ("plain text with no objects").data = false ∧
      extract_json "plain text with no objects" = "plain text with no objects" :=
  ⟨by decide, C8_no_brace_identity "plain text with no objects" (by decide)⟩

/-- C3 counterexample: on the spec's own two-span example (no code
fence), `_extract_json` does not return the longer span
`{"y":2,"z":3}`; the single greedy `\x7b.*\x7d` match runs from the
first opening brace to the last closing brace, so the whole text
`{"x":1} and {"y":2,"z":3}` comes back. -/
theorem C3_counterexample :
    extract_json "\x7b\x22x\x22:1\x7d and \x7b\x22y\x22:2,\x22z\x22:3\x7d"
        = "\x7b\x22x\x22:1\x7d and \x7b\x22y\x22:2,\x22z\x22:3\x7d" ∧
      ("\x7b\x22x\x22:1\x7d and \x7b\x22y\x22:2,\x22z\x22:3\x7d" : String)
        ≠ "\x7b\x22y\x22:2,\x22z\x22:3\x7d" := by
  constructor
  · have hdata : ("\x7b\x22x\x22:1\x7d and \x7b\x22y\x22:2,\x22z\x22:3\x7d" : String).data
        = [] ++ '\x7b' :: (("\x22x\x22:1\x7d and \x7b\x22y\x22:2,\x22z\x22:3" : String).data
            ++ '\x7d' :: []) := by decide
    have hfen : fencedFirst
        ("\x7b\x22x\x22:1\x7d and \x7b\x22y\x22:2,\x22z\x22:3\x7d" : String).data = none := by
      decide
    have hraw := rawMatches_decomp []
      ("\x22x\x22:1\x7d and \x7b\x22y\x22:2,\x22z\x22:3" : String).data []
      (by decide) (by decide)
    unfold extract_json
    rw [hfen, hdata, hraw]
    decide
  · decide

/-- C3 (amended): when no fenced block matches and the text decomposes
as `a ++ "\x7b" ++ b ++ "\x7d" ++ c` with no opening brace in `a` and no
closing brace in `c`, the greedy fallback produces exactly one
candidate — the span from the text's first opening brace to its last
closing brace — and `_extract_json` returns it (so for the two-span
example it returns the whole `{"x":1} and {"y":2,"z":3}` span, not the
longer of the two objects). -/
theorem C3_greedy_single_span (a b c : List Char)
    (ha : '\x7b' ∉ a) (hc : '\x7d' ∉ c)
    (hfence : fencedFirst (a ++ '\x7b' :: (b ++ '\x7d' :: c)) = none) :
    extract_json (String.mk (a ++ '\x7b' :: (b ++ '\x7d' :: c)))
      = String.mk ('\x7b' :: (b ++ ['\x7d'])) := by
  unfold extract_json
  rw [show (String.mk (a ++ '\x7b' :: (b ++ '\x7d' :: c))).data
      = a ++ '\x7b' :: (b ++ '\x7d' :: c) from rfl]
  rw [hfence, rawMatches_decomp a b c ha hc]
  rfl

/-- Witness for the amended C3 at the spec's two-span example. -/
theorem C3_witness :
    extract_json (String.mk ([] ++ '\x7b' ::
        (("\x22x\x22:1\x7d and \x7b\x22y\x22:2,\x22z\x22:3" : String).data ++ '\x7d' :: [])))
      = String.mk ('\x7b' ::
        (("\x22x\x22:1\x7d and \x7b\x22y\x22:2,\x22z\x22:3" : String).data ++ ['\x7d'])) :=
  C3_greedy_single_span [] _ [] (by decide) (by decide) (by decide)

/-! ### Lemmas about the planning loop -/

/-- The generation dispatch at the start of iteration `n` reproduces
the trace plan of iteration `n`. -/
theorem nextPlan_trace (gen : MealPlanInput → Option String → Option EvalScore → String)
    (ev : MealPlanInput → String → EvalScore) (u : MealPlanInput) (n : ℕ) :
    nextPlan gen u (prevPlanOf gen ev u n) (prevEvalOf gen ev u n) = planAt gen ev u n := by
  cases n with
  | zero => rfl
  | succ m => rfl

/-- The trace evaluation is the evaluation of the trace plan. -/
theorem evalAt_eq (gen : MealPlanInput → Option String → Option EvalScore → String)
    (ev : MealPlanInput → String → EvalScore) (u : MealPlanInput) (n : ℕ) :
    evalAt gen ev u n = ev u (planAt gen ev u n) := by
  cases n with
  | zero => rfl
  | succ m => rfl

/-- Reindexing of an evaluation history after peeling one iteration. -/
theorem history_shift {α : Type} (f : ℕ → α) (n k : ℕ) (acc : List α) :
    (acc ++ [f n]) ++ (List.range (k + 1)).map (fun i => f (n + 1 + i))
      = acc ++ (List.range (k + 2)).map (fun i => f (n + i)) := by
  rw [List.append_assoc]
  congr 1
  have h2 : List.range (k + 2) = 0 :: (List.range (k + 1)).map Nat.succ :=
    List.range_succ_eq_map (k + 1)
  rw [h2, List.map_cons, List.map_map, List.singleton_append]
  have h3 : ∀ i ∈ List.range (k + 1),
      (fun i => f (n + 1 + i)) i = ((fun i => f (n + i)) ∘ Nat.succ) i := by
    intro i _
    simp only [Function.comp_apply]
    congr 1
    omega
  rw [List.map_congr_left h3]
  simp

/-- If iteration `n + k` is the first from `n` on to reach the
threshold and there is fuel left for it, the loop returns that
iteration's plan and appends exactly the evaluations of iterations
`n` through `n + k`. -/
theorem planLoopGo_stops (gen : MealPlanInput → Option String → Option EvalScore → String)
    (ev : MealPlanInput → String → EvalScore) (u : MealPlanInput) (θ : ℚ) :
    ∀ (k n fuel : ℕ) (acc : List EvalScore),
      k < fuel →
      θ ≤ scoreAt gen ev u (n + k) →
      (∀ j, j < k → ¬ θ ≤ scoreAt gen ev u (n + j)) →
      planLoopGo gen ev u θ fuel (prevPlanOf gen ev u n) (prevEvalOf gen ev u n) acc
        = (some (planAt gen ev u (n + k)),
           acc ++ (List.range (k + 1)).map (fun i => evalAt gen ev u (n + i))) := by
  intro k
  induction k with
  | zero =>
    intro n fuel acc hk hfound _
    cases fuel with
    | zero => omega
    | succ f =>
      simp only [planLoopGo]
      rw [nextPlan_trace]
      have he : ev u (planAt gen ev u n) = evalAt gen ev u n := (evalAt_eq _ _ _ _).symm
      rw [he, if_pos (by simpa using hfound)]
      simp [List.range_succ]
  | succ k ih =>
    intro n fuel acc hk hfound hbelow
    cases fuel with
    | zero => omega
    | succ f =>
      simp only [planLoopGo]
      rw [nextPlan_trace]
      have he : ev u (planAt gen ev u n) = evalAt gen ev u n := (evalAt_eq _ _ _ _).symm
      have hb0 : ¬ θ ≤ scoreAt gen ev u (n + 0) := hbelow 0 (Nat.succ_pos k)
      rw [he, if_neg (by simpa using hb0)]
      have hfound2 : θ ≤ scoreAt gen ev u (n + 1 + k) := by
        have : n + 1 + k = n + (k + 1) := by omega
        rwa [this]
      have hbelow2 : ∀ j, j < k → ¬ θ ≤ scoreAt gen ev u (n + 1 + j) := by
        intro j hj
        have h2 := hbelow (j + 1) (by omega)
        have : n + (j + 1) = n + 1 + j := by omega
        rwa [this] at h2
      have hrec : planLoopGo gen ev u θ f (some (planAt gen ev u n))
          (some (evalAt gen ev u n)) (acc ++ [evalAt gen ev u n])
          = (some (planAt gen ev u (n + 1 + k)),
             (acc ++ [evalAt gen ev u n])
               ++ (List.range (k + 1)).map (fun i => evalAt gen ev u (n + 1 + i))) :=
        ih (n + 1) f (acc ++ [evalAt gen ev u n]) (by omega) hfound2 hbelow2
      rw [hrec, history_shift]
      have : n + 1 + k = n + (k + 1) := by omega
      rw [this]

/-- If no iteration from `n` through `n + fuel - 1` reaches the
threshold, the loop uses up all its fuel and returns the last plan and
the full history. -/
theorem planLoopGo_exhausts (gen : MealPlanInput → Option String → Option EvalScore → String)
    (ev : MealPlanInput → String → EvalScore) (u : MealPlanInput) (θ : ℚ) :
    ∀ (fuel n : ℕ) (acc : List EvalScore),
      1 ≤ fuel →
      (∀ j, j < fuel → ¬ θ ≤ scoreAt gen ev u (n + j)) →
      planLoopGo gen ev u θ fuel (prevPlanOf gen ev u n) (prevEvalOf gen ev u n) acc
        = (some (planAt gen ev u (n + (fuel - 1))),
           acc ++ (List.range fuel).map (fun i => evalAt gen ev u (n + i))) := by
  intro fuel
  induction fuel with
  | zero => intro n acc h; omega
  | succ f ih =>
    intro n acc _ hbelow
    simp only [planLoopGo]
    rw [nextPlan_trace]
    have he : ev u (planAt gen ev u n) = evalAt gen ev u n := (evalAt_eq _ _ _ _).symm
    have hb0 : ¬ θ ≤ scoreAt gen ev u (n + 0) := hbelow 0 (Nat.succ_pos f)
    rw [he, if_neg (by simpa using hb0)]
    cases f with
    | zero => simp [planLoopGo, List.range_succ]
    | succ f2 =>
      have hbelow2 : ∀ j, j < f2 + 1 → ¬ θ ≤ scoreAt gen ev u (n + 1 + j) := by
        intro j hj
        have h2 := hbelow (j + 1) (by omega)
        have : n + (j + 1) = n + 1 + j := by omega
        rwa [this] at h2
      have hrec : planLoopGo gen ev u θ (f2 + 1) (some (planAt gen ev u n))
          (some (evalAt gen ev u n)) (acc ++ [evalAt gen ev u n])
          = (some (planAt gen ev u (n + 1 + (f2 + 1 - 1))),
             (acc ++ [evalAt gen ev u n])
               ++ (List.range (f2 + 1)).map (fun i => evalAt gen ev u (n + 1 + i))) :=
        ih (n + 1) (acc ++ [evalAt gen ev u n]) (by omega) hbelow2
      rw [hrec, history_shift]
      have : n + 1 + (f2 + 1 - 1) = n + (f2 + 1 + 1 - 1) := by omega
      rw [this]

/-- C1: for every stub Completion Service (abstract generation and
evaluation functions) and every iteration cap of at least 1,
`plan_meals` stops at the first iteration whose overall score reaches
the threshold, returning that iteration's plan payload and a history
containing exactly the evaluations of the iterations actually run;
and if no iteration reaches the threshold it runs exactly
`maxIterations` iterations and returns the last plan/evaluation pair,
with no error (the result is a total value). -/
theorem C1_loop_termination
    (gen : MealPlanInput → Option String → Option EvalScore → String)
    (ev : MealPlanInput → String → EvalScore) (u : MealPlanInput)
    (maxIterations : ℕ) (θ : ℚ) (hmax : 1 ≤ maxIterations) :
    (∀ k, k < maxIterations → θ ≤ scoreAt gen ev u k →
        (∀ j, j < k → ¬ θ ≤ scoreAt gen ev u j) →
        plan_meals gen ev u maxIterations θ
          = (some (planAt gen ev u k), (List.range (k + 1)).map (evalAt gen ev u)))
    ∧ ((∀ j, j < maxIterations → ¬ θ ≤ scoreAt gen ev u j) →
        plan_meals gen ev u maxIterations θ
          = (some (planAt gen ev u (maxIterations - 1)),
             (List.range maxIterations).map (evalAt gen ev u))) := by
  constructor
  · intro k hk hfound hbelow
    have h := planLoopGo_stops gen ev u θ k 0 maxIterations [] hk
      (by simpa using hfound) (fun j hj => by simpa using hbelow j hj)
    simpa [plan_meals] using h
  · intro hbelow
    have h := planLoopGo_exhausts gen ev u θ maxIterations 0 [] hmax
      (fun j hj => by simpa using hbelow j hj)
    simpa [plan_meals] using h

/-- Witness for C1: with the stub scoring 40 then 90 at threshold 85
and cap 3, the loop stops after two iterations and returns the revised
plan with a two-entry history. -/
theorem C1_witness :
    (1 : ℕ) ≤ 3 ∧
      plan_meals demoGen demoEval demoInput 3 85
        = (some (planAt demoGen demoEval demoInput 1),
           (List.range 2).map (evalAt demoGen demoEval demoInput)) :=
  ⟨by decide,
   (C1_loop_termination demoGen demoEval demoInput 3 85 (by decide)).1 1 (by decide)
     (by decide) (by decide)⟩

/-- C4 counterexample: the session entry point exposes no per-call
iteration cap or threshold.  With a stub scoring 40, 45, 50, 96, ...
the entry point always stops after 3 iterations with the score-50
result; the run the claimed `planMeals(..., maxIterations=5, ...)`
call would produce (a fourth iteration succeeding at 96) differs, and
no argument of the entry point can produce it. -/
theorem C4_counterexample :
    plan_meals_entry demoGen demoEval4 demoInput
        = (some "P0++", [stubEval 40, stubEval 45, stubEval 50]) ∧
      plan_meals demoGen demoEval4 demoInput 5 85
        = (some "P0+++", [stubEval 40, stubEval 45, stubEval 50, stubEval 96]) ∧
      plan_meals demoGen demoEval4 demoInput 5 85
        ≠ plan_meals_entry demoGen demoEval4 demoInput :=
  ⟨by decide, by decide, by decide⟩

/-- C4 (amended): the session entry point is `plan_meals(user_input)`
(plus a print-only `verbose` flag); the iteration cap and quality
threshold are not per-call parameters but the class configuration
constants, whose values are 3 and 85.0, so every call behaves as the
parametric loop at cap 3 and threshold 85. -/
theorem C4_entry_defaults :
    MAX_ITERATIONS = 3 ∧ QUALITY_THRESHOLD = 85 ∧
      ∀ (gen : MealPlanInput → Option String → Option EvalScore → String)
        (ev : MealPlanInput → String → EvalScore) (u : MealPlanInput),
        plan_meals_entry gen ev u = plan_meals gen ev u 3 85 :=
  ⟨rfl, rfl, fun _ _ _ => rfl⟩

/-! ### Lemmas about evaluation parsing and scoring -/

/-- Successful parsing determines every field: each criterion is the
result of its `parseCriterion`, the notes come from the
`improvement_notes` default, and the overall score is the weighted sum
of the five parsed criteria — never a value read from the document. -/
theorem parse_ok_fields (d : JValue) (e : EvalScore) (h : parse_evaluation d = .ok e) :
    parseCriterion d "inventory_optimization" = .ok e.inventory_optimization ∧
    parseCriterion d "nutritional_variety" = .ok e.nutritional_variety ∧
    parseCriterion d "practicality" = .ok e.practicality ∧
    parseCriterion d "cost_efficiency" = .ok e.cost_efficiency ∧
    parseCriterion d "preference_alignment" = .ok e.preference_alignment ∧
    notesField d = .ok e.improvement_notes ∧
    e.overall_score = calculate_weighted_score e.inventory_optimization
      e.nutritional_variety e.practicality e.cost_efficiency e.preference_alignment := by
  unfold parse_evaluation at h
  cases h1 : parseCriterion d "inventory_optimization" with
  | error e1 => rw [h1] at h; exact absurd h (by simp)
  | ok io =>
  rw [h1] at h
  cases h2 : parseCriterion d "nutritional_variety" with
  | error e1 => rw [h2] at h; exact absurd h (by simp)
  | ok nv =>
  rw [h2] at h
  cases h3 : parseCriterion d "practicality" with
  | error e1 => rw [h3] at h; exact absurd h (by simp)
  | ok pr =>
  rw [h3] at h
  cases h4 : parseCriterion d "cost_efficiency" with
  | error e1 => rw [h4] at h; exact absurd h (by simp)
  | ok ce =>
  rw [h4] at h
  cases h5 : parseCriterion d "preference_alignment" with
  | error e1 => rw [h5] at h; exact absurd h (by simp)
  | ok pa =>
  rw [h5] at h
  cases h6 : notesField d with
  | error e1 => rw [h6] at h; exact absurd h (by simp)
  | ok notes =>
  rw [h6] at h
  injection h with h7
  subst h7
  exact ⟨rfl, rfl, rfl, rfl, rfl, rfl, rfl⟩

/-- A parse that must fail on one of the required criteria fails as a
whole. -/
theorem parse_fails_of_criterion (d : JValue) (k : String) (hk : k ∈ requiredKeys)
    (h : ∀ c, parseCriterion d k ≠ .ok c) :
    isParseSuccess (parse_evaluation d) = false := by
  cases hres : parse_evaluation d with
  | error e1 => rfl
  | ok e =>
    exfalso
    have hf := parse_ok_fields d e hres
    simp only [requiredKeys, List.mem_cons, List.not_mem_nil, or_false] at hk
    rcases hk with rfl | rfl | rfl | rfl | rfl
    · exact h _ hf.1
    · exact h _ hf.2.1
    · exact h _ hf.2.2.1
    · exact h _ hf.2.2.2.1
    · exact h _ hf.2.2.2.2.1

/-- A successful criterion parse presupposes the criterion object and
its `score` and `feedback` lookups. -/
theorem parseCriterion_ok_shape (d : JValue) (k : String) (c : CriterionScore)
    (h : parseCriterion d k = .ok c) :
    ∃ o, getKey d k = .ok o ∧
      (∃ sv, getKey o "score" = .ok sv) ∧ (∃ fv, getKey o "feedback" = .ok fv) := by
  unfold parseCriterion at h
  split at h
  · exact absurd h (by simp)
  · rename_i o h1
    split at h
    · exact absurd h (by simp)
    · rename_i sv h2
      split at h
      · exact absurd h (by simp)
      · rename_i s h3
        split at h
        · exact absurd h (by simp)
        · rename_i fv h4
          exact ⟨o, h1, ⟨sv, h2⟩, ⟨fv, h4⟩⟩

/-- When the criterion object has no `suggestions` key, the parsed
criterion's suggestion list is empty. -/
theorem parseCriterion_no_sug (kvs : List (String × JValue)) (o : List (String × JValue))
    (k : String) (c : CriterionScore)
    (hlk : lookupLast k kvs = some (.jobj o))
    (hsug : lookupLast "suggestions" o = none)
    (h : parseCriterion (.jobj kvs) k = .ok c) : c.suggestions = [] := by
  have hg : getKey (.jobj kvs) k = .ok (.jobj o) := by
    have hred : getKey (.jobj kvs) k
        = (match lookupLast k kvs with
           | some v => Except.ok v
           | none => Except.error ("KeyError: " ++ k)) := rfl
    rw [hred, hlk]
  have hpg : pyGet (.jobj o) "suggestions" = none := hsug
  unfold parseCriterion at h
  split at h
  · exact absurd h (by simp)
  · rename_i o2 h1
    have ho2 : o2 = .jobj o := by
      rw [hg] at h1
      injection h1 with h12
      exact h12.symm
    subst ho2
    split at h
    · exact absurd h (by simp)
    · rename_i sv h2
      split at h
      · exact absurd h (by simp)
      · rename_i s h3
        split at h
        · exact absurd h (by simp)
        · rename_i fv h4
          split at h
          · exact absurd h (by simp)
          · rename_i f h5
            split at h
            · injection h with h6
              rw [← h6]
            · rename_i sg h7
              rw [hpg] at h7
              exact absurd h7 (by simp)

/-- Appending an entry under a different key does not change a lookup. -/
theorem lookupLast_append_ne (k extra : String) (v : JValue)
    (kvs : List (String × JValue)) (hne : k ≠ extra) :
    lookupLast k (kvs ++ [(extra, v)]) = lookupLast k kvs := by
  induction kvs with
  | nil =>
    have : lookupLast k [(extra, v)]
        = (match lookupLast k [] with
           | some r => some r
           | none => if extra = k then some v else none) := rfl
    rw [List.nil_append, this]
    have hek : ¬ extra = k := fun h => hne h.symm
    simp [lookupLast, hek]
  | cons p rest ih =>
    cases p with
    | mk k2 v2 =>
      have h1 : lookupLast k ((k2, v2) :: (rest ++ [(extra, v)]))
          = (match lookupLast k (rest ++ [(extra, v)]) with
             | some r => some r
             | none => if k2 = k then some v2 else none) := rfl
      have h2 : lookupLast k ((k2, v2) :: rest)
          = (match lookupLast k rest with
             | some r => some r
             | none => if k2 = k then some v2 else none) := rfl
      rw [List.cons_append, h1, h2, ih]

/-- Appending an unrelated key does not change a criterion parse. -/
theorem parseCriterion_append_ne (kvs : List (String × JValue)) (extra : String)
    (v : JValue) (k : String) (hne : k ≠ extra) :
    parseCriterion (.jobj (kvs ++ [(extra, v)])) k = parseCriterion (.jobj kvs) k := by
  have hg : getKey (.jobj (kvs ++ [(extra, v)])) k = getKey (.jobj kvs) k := by
    have h1 : getKey (.jobj (kvs ++ [(extra, v)])) k
        = (match lookupLast k (kvs ++ [(extra, v)]) with
           | some v2 => Except.ok v2
           | none => Except.error ("KeyError: " ++ k)) := rfl
    have h2 : getKey (.jobj kvs) k
        = (match lookupLast k kvs with
           | some v2 => Except.ok v2
           | none => Except.error ("KeyError: " ++ k)) := rfl
    rw [h1, h2, lookupLast_append_ne k extra v kvs hne]
  unfold parseCriterion
  rw [hg]

/-- Appending an unrelated key does not change the notes lookup. -/
theorem notesField_append_ne (kvs : List (String × JValue)) (extra : String)
    (v : JValue) (hne : ("improvement_notes" : String) ≠ extra) :
    notesField (.jobj (kvs ++ [(extra, v)])) = notesField (.jobj kvs) := by
  unfold notesField
  have hp : pyGet (.jobj (kvs ++ [(extra, v)])) "improvement_notes"
      = pyGet (.jobj kvs) "improvement_notes" := by
    have h1 : pyGet (.jobj (kvs ++ [(extra, v)])) "improvement_notes"
        = lookupLast "improvement_notes" (kvs ++ [(extra, v)]) := rfl
    have h2 : pyGet (.jobj kvs) "improvement_notes"
        = lookupLast "improvement_notes" kvs := rfl
    rw [h1, h2, lookupLast_append_ne _ extra v kvs hne]
  rw [hp]

/-- C2: the overall score of every successfully parsed evaluation is
the two-decimal rounding of the fixed weighted sum
0.35 / 0.20 / 0.20 / 0.15 / 0.10 of the five parsed criterion scores
alone; and any extra key in the document — in particular a
service-reported total — is discarded: appending it leaves the entire
parse result unchanged. -/
theorem C2_weighted_overall :
    (∀ d e, parse_evaluation d = .ok e →
        e.overall_score
          = round2 ((35 / 100) * e.inventory_optimization.score
              + (20 / 100) * e.nutritional_variety.score
              + (20 / 100) * e.practicality.score
              + (15 / 100) * e.cost_efficiency.score
              + (10 / 100) * e.preference_alignment.score))
    ∧ (∀ kvs extra v, extra ∉ relevantKeys →
        parse_evaluation (.jobj (kvs ++ [(extra, v)])) = parse_evaluation (.jobj kvs)) := by
  constructor
  · intro d e h
    have hf := (parse_ok_fields d e h).2.2.2.2.2.2
    rw [hf]
    unfold calculate_weighted_score
    congr 1
    ring
  · intro kvs extra v hextra
    have hmem : ∀ k ∈ relevantKeys, k ≠ extra := fun k hk heq => hextra (heq ▸ hk)
    unfold parse_evaluation
    rw [parseCriterion_append_ne kvs extra v _ (hmem _ (by decide)),
      parseCriterion_append_ne kvs extra v _ (hmem _ (by decide)),
      parseCriterion_append_ne kvs extra v _ (hmem _ (by decide)),
      parseCriterion_append_ne kvs extra v _ (hmem _ (by decide)),
      parseCriterion_append_ne kvs extra v _ (hmem _ (by decide)),
      notesField_append_ne kvs extra v (hmem _ (by decide))]

/-- Witness for C2: on a concrete document the parsed overall score is
the weighted-sum rounding, and appending a `"total"` key changes
nothing. -/
theorem C2_witness :
    parse_evaluation sampleDoc = .ok sampleEval ∧
      sampleEval.overall_score
        = round2 ((35 / 100) * sampleEval.inventory_optimization.score
            + (20 / 100) * sampleEval.nutritional_variety.score
            + (20 / 100) * sampleEval.practicality.score
            + (15 / 100) * sampleEval.cost_efficiency.score
            + (10 / 100) * sampleEval.preference_alignment.score) ∧
      parse_evaluation (.jobj
          ([("inventory_optimization", sampleCriterion 80),
            ("nutritional_variety", sampleCriterion 70),
            ("practicality", sampleCriterion 90),
            ("cost_efficiency", sampleCriterion 60),
            ("preference_alignment", sampleCriterion 50),
            ("improvement_notes", JValue.jstr "notes")] ++ [("total", JValue.jnum 99)]))
        = parse_evaluation (.jobj
          [("inventory_optimization", sampleCriterion 80),
           ("nutritional_variety", sampleCriterion 70),
           ("practicality", sampleCriterion 90),
           ("cost_efficiency", sampleCriterion 60),
           ("preference_alignment", sampleCriterion 50),
           ("improvement_notes", JValue.jstr "notes")]) :=
  ⟨rfl, C2_weighted_overall.1 sampleDoc sampleEval rfl,
   C2_weighted_overall.2 _ "total" (JValue.jnum 99) (by decide)⟩

/-- C5: `_parse_evaluation` fails (aborting without a result) whenever
one of the five required criterion keys is absent from the evaluation
document, or a `score` / `feedback` field is missing inside one of
them; and for every criterion whose `suggestions` key is absent, the
parsed criterion's suggestion list is empty. -/
theorem C5_parse_requirements :
    (∀ kvs k, k ∈ requiredKeys → lookupLast k kvs = none →
        isParseSuccess (parse_evaluation (.jobj kvs)) = false)
    ∧ (∀ kvs k o, k ∈ requiredKeys → lookupLast k kvs = some (.jobj o) →
        (lookupLast "score" o = none ∨ lookupLast "feedback" o = none) →
        isParseSuccess (parse_evaluation (.jobj kvs)) = false)
    ∧ (∀ kvs e k c o, parse_evaluation (.jobj kvs) = .ok e →
        (k, c) ∈ criteriaOf e → lookupLast k kvs = some (.jobj o) →
        lookupLast "suggestions" o = none → c.suggestions = []) := by
  refine ⟨?_, ?_, ?_⟩
  · intro kvs k hk hlk
    apply parse_fails_of_criterion _ _ hk
    intro c hc
    obtain ⟨o, hg, _, _⟩ := parseCriterion_ok_shape _ _ _ hc
    have hge : getKey (.jobj kvs) k = .error ("KeyError: " ++ k) := by
      have hred : getKey (.jobj kvs) k
          = (match lookupLast k kvs with
             | some v => Except.ok v
             | none => Except.error ("KeyError: " ++ k)) := rfl
      rw [hred, hlk]
    rw [hge] at hg
    exact absurd hg (by simp)
  · intro kvs k o hk hlk hmiss
    apply parse_fails_of_criterion _ _ hk
    intro c hc
    obtain ⟨o2, hg, ⟨sv, hsv⟩, ⟨fv, hfv⟩⟩ := parseCriterion_ok_shape _ _ _ hc
    have hge : getKey (.jobj kvs) k = .ok (.jobj o) := by
      have hred : getKey (.jobj kvs) k
          = (match lookupLast k kvs with
             | some v => Except.ok v
             | none => Except.error ("KeyError: " ++ k)) := rfl
      rw [hred, hlk]
    rw [hge] at hg
    injection hg with hg2
    subst hg2
    rcases hmiss with hm | hm
    · have hsc : getKey (.jobj o) "score" = .error ("KeyError: " ++ "score") := by
        have hred : getKey (.jobj o) "score"
            = (match lookupLast "score" o with
               | some v => Except.ok v
               | none => Except.error ("KeyError: " ++ "score")) := rfl
        rw [hred, hm]
      rw [hsc] at hsv
      exact absurd hsv (by simp)
    · have hfb : getKey (.jobj o) "feedback" = .error ("KeyError: " ++ "feedback") := by
        have hred : getKey (.jobj o) "feedback"
            = (match lookupLast "feedback" o with
               | some v => Except.ok v
               | none => Except.error ("KeyError: " ++ "feedback")) := rfl
        rw [hred, hm]
      rw [hfb] at hfv
      exact absurd hfv (by simp)
  · intro kvs e k c o hok hmem hlk hsug
    have hf := parse_ok_fields _ _ hok
    simp only [criteriaOf, List.mem_cons, List.not_mem_nil, or_false, Prod.mk.injEq] at hmem
    rcases hmem with ⟨rfl, rfl⟩ | ⟨rfl, rfl⟩ | ⟨rfl, rfl⟩ | ⟨rfl, rfl⟩ | ⟨rfl, rfl⟩
    · exact parseCriterion_no_sug kvs o _ _ hlk hsug hf.1
    · exact parseCriterion_no_sug kvs o _ _ hlk hsug hf.2.1
    · exact parseCriterion_no_sug kvs o _ _ hlk hsug hf.2.2.1
    · exact parseCriterion_no_sug kvs o _ _ hlk hsug hf.2.2.2.1
    · exact parseCriterion_no_sug kvs o _ _ hlk hsug hf.2.2.2.2.1

/-- Witness for C5: the document missing `practicality` fails to
parse, and a criterion without a `suggestions` key parses with an
empty suggestion list. -/
theorem C5_witness :
    isParseSuccess (parse_evaluation sampleDocMissing) = false ∧
      parse_evaluation sampleDocNoSug = .ok sampleEval ∧
      sampleEval.practicality.suggestions = [] := by
  refine ⟨?_, rfl, ?_⟩
  · exact C5_parse_requirements.1
      [("inventory_optimization", sampleCriterion 80),
       ("nutritional_variety", sampleCriterion 70),
       ("cost_efficiency", sampleCriterion 60),
       ("preference_alignment", sampleCriterion 50),
       ("improvement_notes", JValue.jstr "notes")]
      "practicality" (by decide) rfl
  · exact C5_parse_requirements.2.2
      [("inventory_optimization", sampleCriterion 80),
       ("nutritional_variety", sampleCriterion 70),
       ("practicality", sampleCriterionNoSug),
       ("cost_efficiency", sampleCriterion 60),
       ("preference_alignment", sampleCriterion 50),
       ("improvement_notes", JValue.jstr "notes")]
      sampleEval "practicality" sampleEval.practicality
      [("score", JValue.jnum 90), ("feedback", JValue.jstr "ok")]
      rfl (by simp [criteriaOf]) rfl rfl

/-- Serialized string lists parse back to themselves. -/
theorem asStrs_map (l : List String) : asStrs (l.map .jstr) = .ok l := by
  induction l with
  | nil => rfl
  | cons s rest ih =>
    have hred : asStrs ((s :: rest).map .jstr)
        = (match asStrs (rest.map .jstr) with
           | .ok t => .ok (s :: t)
           | .error e => .error e) := rfl
    rw [hred, ih]

/-- A criterion whose lookup yields a serialized criterion object
parses back to the original criterion. -/
theorem parseCriterion_of_getKey (d : JValue) (k : String) (c : CriterionScore)
    (hg : getKey d k = .ok (serializeCriterion c)) :
    parseCriterion d k = .ok c := by
  unfold parseCriterion
  rw [hg]
  show (match asStrs (c.suggestions.map .jstr) with
        | .error e => (.error e : Except String CriterionScore)
        | .ok sugs => .ok ⟨c.score, c.feedback, sugs⟩) = .ok c
  rw [asStrs_map]

/-- C9: any evaluation document accepted by `_parse_evaluation`,
re-serialized to the evaluation payload shape and parsed again, yields
the identical `EvalScore` — in particular identical five criterion
scores and identical overall score. -/
theorem C9_reparse_roundtrip (d : JValue) (e : EvalScore)
    (h : parse_evaluation d = .ok e) :
    parse_evaluation (serializeEvaluation e) = .ok e := by
  have hf := parse_ok_fields d e h
  have h1 : parseCriterion (serializeEvaluation e) "inventory_optimization"
      = .ok e.inventory_optimization := parseCriterion_of_getKey _ _ _ rfl
  have h2 : parseCriterion (serializeEvaluation e) "nutritional_variety"
      = .ok e.nutritional_variety := parseCriterion_of_getKey _ _ _ rfl
  have h3 : parseCriterion (serializeEvaluation e) "practicality"
      = .ok e.practicality := parseCriterion_of_getKey _ _ _ rfl
  have h4 : parseCriterion (serializeEvaluation e) "cost_efficiency"
      = .ok e.cost_efficiency := parseCriterion_of_getKey _ _ _ rfl
  have h5 : parseCriterion (serializeEvaluation e) "preference_alignment"
      = .ok e.preference_alignment := parseCriterion_of_getKey _ _ _ rfl
  have h6 : notesField (serializeEvaluation e) = .ok e.improvement_notes := rfl
  unfold parse_evaluation
  rw [h1, h2, h3, h4, h5, h6]
  show Except.ok
      { inventory_optimization := e.inventory_optimization
        nutritional_variety := e.nutritional_variety
        practicality := e.practicality
        cost_efficiency := e.cost_efficiency
        preference_alignment := e.preference_alignment
        overall_score := calculate_weighted_score e.inventory_optimization
          e.nutritional_variety e.practicality e.cost_efficiency e.preference_alignment
        improvement_notes := e.improvement_notes } = Except.ok e
  rw [← hf.2.2.2.2.2.2]

/-- Witness for C9 at the concrete sample document. -/
theorem C9_witness :
    parse_evaluation sampleDoc = .ok sampleEval ∧
      parse_evaluation (serializeEvaluation sampleEval) = .ok sampleEval :=
  ⟨rfl, C9_reparse_roundtrip sampleDoc sampleEval rfl⟩

/-- Rounding to two decimals preserves lower bounds at 0. -/
theorem round2_nonneg (x : ℚ) (h : 0 ≤ x) : 0 ≤ round2 x := by
  unfold round2
  apply div_nonneg _ (by norm_num)
  have h1 : (0 : ℤ) ≤ round (x * 100) := by
    rw [round_eq]
    apply Int.le_floor.mpr
    push_cast
    linarith
  exact_mod_cast h1

/-- Rounding to two decimals preserves the upper bound at 100. -/
theorem round2_le_100 (x : ℚ) (h : x ≤ 100) : round2 x ≤ 100 := by
  unfold round2
  rw [div_le_iff₀ (by norm_num : (0:ℚ) < 100)]
  have h1 : round (x * 100) ≤ round ((10000 : ℚ)) := by
    rw [round_eq, round_eq]
    exact Int.floor_le_floor (by linarith)
  have h2 : round ((10000 : ℚ)) = 10000 := by
    rw [show ((10000 : ℚ)) = ((10000 : ℤ) : ℚ) by norm_num, round_intCast]
  rw [h2] at h1
  have h3 : ((round (x * 100) : ℤ) : ℚ) ≤ ((10000 : ℤ) : ℚ) := by exact_mod_cast h1
  calc ((round (x * 100) : ℤ) : ℚ) ≤ ((10000 : ℤ) : ℚ) := h3
    _ = 100 * 100 := by norm_num

/-- C10: with all five criterion scores in [0, 100], the weighted
overall score computed by `calculate_weighted_score` lies in [0, 100]:
the weights are non-negative and sum to 1, and two-decimal rounding
preserves the bounds. -/
theorem C10_overall_in_range (io nv pr ce pa : CriterionScore)
    (h1 : 0 ≤ io.score) (h2 : io.score ≤ 100)
    (h3 : 0 ≤ nv.score) (h4 : nv.score ≤ 100)
    (h5 : 0 ≤ pr.score) (h6 : pr.score ≤ 100)
    (h7 : 0 ≤ ce.score) (h8 : ce.score ≤ 100)
    (h9 : 0 ≤ pa.score) (h10 : pa.score ≤ 100) :
    0 ≤ calculate_weighted_score io nv pr ce pa
      ∧ calculate_weighted_score io nv pr ce pa ≤ 100 := by
  unfold calculate_weighted_score
  constructor
  · exact round2_nonneg _ (by linarith)
  · exact round2_le_100 _ (by linarith)

/-- Witness for C10 at the sample criterion scores 80/70/90/60/50. -/
theorem C10_witness :
    0 ≤ calculate_weighted_score ⟨80, "ok", []⟩ ⟨70, "ok", []⟩ ⟨90, "ok", []⟩
        ⟨60, "ok", []⟩ ⟨50, "ok", []⟩
      ∧ calculate_weighted_score ⟨80, "ok", []⟩ ⟨70, "ok", []⟩ ⟨90, "ok", []⟩
          ⟨60, "ok", []⟩ ⟨50, "ok", []⟩ ≤ 100 :=
  C10_overall_in_range ⟨80, "ok", []⟩ ⟨70, "ok", []⟩ ⟨90, "ok", []⟩ ⟨60, "ok", []⟩
    ⟨50, "ok", []⟩ (by decide) (by decide) (by decide) (by decide) (by decide)
    (by decide) (by decide) (by decide) (by decide) (by decide)

/-- Concatenating strings concatenates their character data. -/
theorem string_data_append (a b : String) : (a ++ b).data = a.data ++ b.data := rfl

/-- The character data of a joined list of segments. -/
theorem join_data (l : List String) : (String.join l).data = (l.map String.data).flatten := by
  have haux : ∀ (l : List String) (acc : String),
      (l.foldl (fun r s => r ++ s) acc).data = acc.data ++ (l.map String.data).flatten := by
    intro l
    induction l with
    | nil => intro acc; simp
    | cons s rest ih =>
      intro acc
      simp only [List.foldl_cons, List.map_cons, List.flatten_cons]
      rw [ih (acc ++ s), string_data_append, List.append_assoc]
  have h : String.join l = l.foldl (fun r s => r ++ s) "" := rfl
  rw [h, haux l ""]
  rfl

/-- Every segment of a joined prompt occurs inside it. -/
theorem join_part_within (s : String) (l : List String) (h : s ∈ l) :
    s.data <:+: (String.join l).data := by
  rw [join_data]
  exact List.infix_of_mem_flatten (List.mem_map_of_mem String.data h)

/-- C6: the revision-mode generation prompt built by
`_build_improvement_prompt` contains, verbatim, the previous
iteration's improvement notes, all five previous criterion feedback
strings and their rendered suggestion lists, together with the
serialized constraints and the prior plan payload — the revision
context is a superset of the improvement notes and the five feedback
strings. -/
theorem C6_revision_prompt_content (u : MealPlanInput) (previous_plan : String)
    (previous_eval : EvalScore) :
    previous_eval.improvement_notes.data
        <:+: (build_improvement_prompt u previous_plan previous_eval).data
    ∧ previous_eval.inventory_optimization.feedback.data
        <:+: (build_improvement_prompt u previous_plan previous_eval).data
    ∧ previous_eval.nutritional_variety.feedback.data
        <:+: (build_improvement_prompt u previous_plan previous_eval).data
    ∧ previous_eval.practicality.feedback.data
        <:+: (build_improvement_prompt u previous_plan previous_eval).data
    ∧ previous_eval.cost_efficiency.feedback.data
        <:+: (build_improvement_prompt u previous_plan previous_eval).data
    ∧ previous_eval.preference_alignment.feedback.data
        <:+: (build_improvement_prompt u previous_plan previous_eval).data
    ∧ (pyListRepr previous_eval.inventory_optimization.suggestions).data
        <:+: (build_improvement_prompt u previous_plan previous_eval).data
    ∧ (pyListRepr previous_eval.nutritional_variety.suggestions).data
        <:+: (build_improvement_prompt u previous_plan previous_eval).data
    ∧ (pyListRepr previous_eval.practicality.suggestions).data
        <:+: (build_improvement_prompt u previous_plan previous_eval).data
    ∧ (pyListRepr previous_eval.cost_efficiency.suggestions).data
        <:+: (build_improvement_prompt u previous_plan previous_eval).data
    ∧ (pyListRepr previous_eval.preference_alignment.suggestions).data
        <:+: (build_improvement_prompt u previous_plan previous_eval).data
    ∧ previous_plan.data
        <:+: (build_improvement_prompt u previous_plan previous_eval).data
    ∧ (dumpsVal (to_dict u) 0).data
        <:+: (build_improvement_prompt u previous_plan previous_eval).data := by
  refine ⟨?_, ?_, ?_, ?_, ?_, ?_, ?_, ?_, ?_, ?_, ?_, ?_, ?_⟩ <;>
    · apply join_part_within
      simp [improvementParts]
